import Mathlib

/-!
Verification of the `get` download-cache-decompress pipeline of nw-builder
(`src/get.js`): target naming, cache paths, fetch URL construction, the
per-artifact traces of filesystem/network effects, the osx entry-walk
extraction loop, and promise-settlement outcomes.

The shallow embedding models each pipeline (`getNwjs`, `getFfmpeg`,
`getNodeHeaders`) as a pure function from its options and an environment
(pre-existing cache files, host platform, redirect locations, zip entries,
failure flags) to the list of observable effects it performs, in program
order.  `resolve(dir, name)` is modelled as `dir ++ "/" ++ name`.
-/

/-- Target platform, the `options.platform` values `"linux" | "osx" | "win"`. -/
inductive Platform where
  | linux
  | osx
  | win
deriving DecidableEq, Repr

/-- Target architecture, the `options.arch` values `"ia32" | "x64" | "arm64"`. -/
inductive Arch where
  | ia32
  | x64
  | arm64
deriving DecidableEq, Repr

/-- Build flavor, the `options.flavor` values `"normal" | "sdk"`. -/
inductive Flavor where
  | normal
  | sdk
deriving DecidableEq, Repr

/-- The string a `Platform` interpolates as in the source's templates. -/
def Platform.str : Platform → String
  | .linux => "linux"
  | .osx => "osx"
  | .win => "win"

/-- The string an `Arch` interpolates as in the source's templates. -/
def Arch.str : Arch → String
  | .ia32 => "ia32"
  | .x64 => "x64"
  | .arm64 => "arm64"

/-- The source's `flavor === "sdk" ? "-sdk" : ""` infix of the runtime name. -/
def flavorTag : Flavor → String
  | .sdk => "-sdk"
  | .normal => ""

/-- The source's `platform === "linux" ? "tar.gz" : "zip"` archive extension. -/
def archiveExt (p : Platform) : String :=
  if p = .linux then "tar.gz" else "zip"

/-- The source's `compressing[platform === "linux" ? "tgz" : "zip"]` selector. -/
def bulkFormat (p : Platform) : String :=
  if p = .linux then "tgz" else "zip"

/-- Model of `resolve(dir, name)` for the purposes of path identity. -/
def resolvePath (dir name : String) : String :=
  dir ++ "/" ++ name

/-- Runtime archive file name,
`nwjs${flavor === "sdk" ? "-sdk" : ""}-v${version}-${platform}-${arch}.${ext}`
from `getNwjs`. -/
def nwjsArchiveName (f : Flavor) (version : String) (p : Platform) (a : Arch) : String :=
  "nwjs" ++ flavorTag f ++ "-v" ++ version ++ "-" ++ p.str ++ "-" ++ a.str ++ "." ++ archiveExt p

/-- Extracted runtime directory name,
`nwjs${flavor === "sdk" ? "-sdk" : ""}-v${version}-${platform}-${arch}` from
`getNwjs` and `getFfmpeg`. -/
def nwjsDirName (f : Flavor) (version : String) (p : Platform) (a : Arch) : String :=
  "nwjs" ++ flavorTag f ++ "-v" ++ version ++ "-" ++ p.str ++ "-" ++ a.str

/-- Codec archive file name, `ffmpeg-v${version}-${platform}-${arch}.zip` from
`getFfmpeg`. -/
def ffmpegArchiveName (version : String) (p : Platform) (a : Arch) : String :=
  "ffmpeg-v" ++ version ++ "-" ++ p.str ++ "-" ++ a.str ++ ".zip"

/-- Headers archive file name, `headers-v${version}-${platform}-${arch}.tar.gz`
from `getNodeHeaders`. -/
def headersArchiveName (version : String) (p : Platform) (a : Arch) : String :=
  "headers-v" ++ version ++ "-" ++ p.str ++ "-" ++ a.str ++ ".tar.gz"

/-- Renamed extracted headers directory name,
`node-v${version}-${platform}-${arch}` from `getNodeHeaders`. -/
def nodeDirName (version : String) (p : Platform) (a : Arch) : String :=
  "node-v" ++ version ++ "-" ++ p.str ++ "-" ++ a.str

/-- A resolved download target: the (version, flavor, platform, arch) tuple. -/
structure GetTarget where
  version : String
  flavor : Flavor
  platform : Platform
  arch : Arch
deriving DecidableEq, Repr

/-- The three artifact kinds of the pipeline. -/
inductive ArtifactKind where
  | runtime
  | codec
  | headers
deriving DecidableEq, Repr

/-- The cache-path computation: the archive file name each pipeline resolves
inside `cacheDir` for its artifact kind (the full path is
`resolvePath cacheDir (locate t k)` with the run's fixed `cacheDir`). -/
def locate (t : GetTarget) : ArtifactKind → String
  | .runtime => nwjsArchiveName t.flavor t.version t.platform t.arch
  | .codec => ffmpegArchiveName t.version t.platform t.arch
  | .headers => headersArchiveName t.version t.platform t.arch

example : locate ⟨"0.82.0", .normal, .linux, .x64⟩ .runtime = "nwjs-v0.82.0-linux-x64.tar.gz" := by decide

example : locate ⟨"0.82.0", .sdk, .win, .ia32⟩ .runtime = "nwjs-sdk-v0.82.0-win-ia32.zip" := by decide

/-- The URL values for which `getNwjs` constructs a non-empty download URL
(lines 247-251 of the source). -/
def allowlisted (u : String) : Bool :=
  u = "https://dl.nwjs.io" ||
  u = "https://npm.taobao.org/mirrors/nwjs" ||
  u = "https://npmmirror.com/mirrors/nwjs"

/-- The mirror hosts for which `getNwjs` replaces the URL of its second
request by the `location` header of the first response (lines 259-264). -/
def isRedirectMirror (u : String) : Bool :=
  u = "https://npm.taobao.org/mirrors/nwjs" ||
  u = "https://npmmirror.com/mirrors/nwjs"

/-- The runtime download URL `getNwjs` constructs: `let url = ""` followed by
the allow-listed assignment
`url = ${downloadUrl}/v${version}/nwjs...-v${version}-${platform}-${arch}.${ext}`. -/
def nwjsConstructedUrl (downloadUrl version : String) (f : Flavor) (p : Platform) (a : Arch) : String :=
  if allowlisted downloadUrl then
    downloadUrl ++ "/v" ++ version ++ "/" ++ nwjsArchiveName f version p a
  else ""

/-- The URLs of the two `getRequest` calls `getNwjs` issues on a cache miss:
the constructed URL, then (for the redirecting mirror hosts only) the
`location` header of the first response, otherwise the same URL again. -/
def nwjsFetchRequests (downloadUrl version : String) (f : Flavor) (p : Platform) (a : Arch)
    (location : String) : List String :=
  [nwjsConstructedUrl downloadUrl version f p a,
   if isRedirectMirror downloadUrl then location
   else nwjsConstructedUrl downloadUrl version f p a]

/-- The hardcoded ffmpeg release host of `getFfmpeg` (line 356-357). -/
def ffmpegDownloadUrl : String :=
  "https://github.com/nwjs-ffmpeg-prebuilt/nwjs-ffmpeg-prebuilt/releases/download"

/-- The codec download URL, `${downloadUrl}/${version}/${version}-${platform}-${arch}.zip`. -/
def ffmpegUrl (version : String) (p : Platform) (a : Arch) : String :=
  ffmpegDownloadUrl ++ "/" ++ version ++ "/" ++ version ++ "-" ++ p.str ++ "-" ++ a.str ++ ".zip"

/-- The headers download URL of `getNodeHeaders`:
`urlBase = "https://dl.nwjs.io/"` and
`url = ${urlBase}/v${version}/nw-headers-v${version}.tar.gz` (lines 466-467).
It is in scope of the pipeline's platform and arch arguments but interpolates
only the version (the double slash is faithful to the source). -/
def headersUrl (version : String) (_p : Platform) (_a : Arch) : String :=
  "https://dl.nwjs.io/" ++ "/v" ++ version ++ "/nw-headers-v" ++ version ++ ".tar.gz"

/-- Path of the fixed patch file,
`resolve("..", "..", "patches", "node_header.patch")` (line 455). -/
def nodeHeaderPatchFile : String :=
  "../../patches/node_header.patch"

/-- One entry of a zip archive as seen by the `yauzl` entry walk. -/
structure ZipEntry where
  filename : String
deriving DecidableEq, Repr

/-- Model of node's `dirname`: the path with its last `/`-component dropped. -/
def dirname (p : String) : String :=
  let parts := p.splitOn "/"
  if parts.length ≤ 1 then "." else String.intercalate "/" parts.dropLast

/-- An observable effect of a pipeline run, in program order: recursive
forced removal (`rm`), an issued network request (`getRequest`), a bulk
decompression (`compressing[fmt].uncompress`), the entry-walk's directory
creation and file write, closing the zip handle, a `console.error` log, a
filesystem `rename`, spawning the `patch` command, and the `replaceFfmpeg`
relocation. -/
inductive Effect where
  | rm (path : String)
  | request (url : String)
  | uncompress (format archive dest : String)
  | mkdirRec (path : String)
  | writeFileEntry (path : String)
  | closeZip
  | logError
  | renameFs (src dst : String)
  | patchExec (file patchFile : String)
  | relocateFfmpeg (platform : Platform) (dir : String)
deriving DecidableEq, Repr

/-- Is the effect a recursive removal? -/
def Effect.isRm : Effect → Bool
  | .rm _ => true
  | _ => false

/-- Is the effect a network request? -/
def Effect.isRequest : Effect → Bool
  | .request _ => true
  | _ => false

/-- Is the effect part of writing extracted archive content to disk? -/
def Effect.isExtraction : Effect → Bool
  | .uncompress _ _ _ => true
  | .mkdirRec _ => true
  | .writeFileEntry _ => true
  | _ => false

/-- Is the effect the spawn of the `patch` command? -/
def Effect.isPatch : Effect → Bool
  | .patchExec _ _ => true
  | _ => false

/-- Is the effect the `replaceFfmpeg` relocation? -/
def Effect.isRelocate : Effect → Bool
  | .relocateFfmpeg _ _ => true
  | _ => false

/-- The run environment: which archives already sit in the cache before the
run starts, whether the host `process.platform` is `"darwin"`, the redirect
`location` headers the two fetches would observe, the entries of the runtime
zip (each paired with a flag saying whether processing that entry throws),
and whether the `patch` command fails. -/
structure Env where
  nwjsArchiveExists : Bool
  ffmpegArchiveExists : Bool
  headersArchiveExists : Bool
  hostIsDarwin : Bool
  nwjsRedirectLocation : String
  ffmpegRedirectLocation : String
  zipEntries : List (ZipEntry × Bool)
  patchFails : Bool
deriving DecidableEq, Repr

/-- The effects the entry walk performs for one zip entry: a directory entry
(name ending in `/`) is created recursively; a file entry first gets its
parent directory created, then its bytes copied to a fresh file. -/
def entryEffects (cacheDir : String) (e : ZipEntry) : List Effect :=
  let fullEntryPath := resolvePath cacheDir e.filename
  if e.filename.endsWith "/" then
    [.mkdirRec fullEntryPath]
  else
    [.mkdirRec (dirname fullEntryPath), .writeFileEntry fullEntryPath]

/-- The `for await (const entry of zip)` loop body over the entry list: the
walk processes entries in order and stops at the first entry whose processing
throws (the `try` block wraps the whole loop); returns the effects performed
and whether an error escaped the loop. -/
def walkEntries (cacheDir : String) : List (ZipEntry × Bool) → List Effect × Bool
  | [] => ([], false)
  | (e, fails) :: rest =>
    if fails then ([], true)
    else
      let r := walkEntries cacheDir rest
      (entryEffects cacheDir e ++ r.1, r.2)

/-- The osx-on-darwin entry-walk extraction of `getNwjs`:
`try { for await ... } catch (e) { console.error(e); } finally { await zip.close(); }`. -/
def entryWalkExtract (cacheDir : String) (entries : List (ZipEntry × Bool)) : List Effect :=
  (walkEntries cacheDir entries).1 ++
  (if (walkEntries cacheDir entries).2 then [.logError] else []) ++
  [.closeZip]

/-- The effects of all entries of a list, in order, with no failure. -/
def entriesEffects (cacheDir : String) (l : List ZipEntry) : List Effect :=
  l.foldr (fun e acc => entryEffects cacheDir e ++ acc) []

/-- The effect trace of `getNwjs`: optional cache eviction when
`cache === false`; on a cache hit (`existsSync(out)`) removal of the stale
extracted directory followed by bulk decompression; on a miss the two
requests, then removal of the stale extracted directory, then either the
entry walk (osx target on a darwin host) or bulk decompression.  A file
removed by the eviction no longer exists at the `existsSync` check, so the
hit condition is `cache && env.nwjsArchiveExists`. -/
def getNwjsTrace (version : String) (f : Flavor) (p : Platform) (a : Arch)
    (downloadUrl cacheDir : String) (cache : Bool) (env : Env) : List Effect :=
  let out := resolvePath cacheDir (nwjsArchiveName f version p a)
  let dir := resolvePath cacheDir (nwjsDirName f version p a)
  (if cache = false then [.rm out] else []) ++
  (if cache && env.nwjsArchiveExists then
    [.rm dir, .uncompress (bulkFormat p) out cacheDir]
  else
    (nwjsFetchRequests downloadUrl version f p a env.nwjsRedirectLocation).map .request ++
    [.rm dir] ++
    (if p = .osx && env.hostIsDarwin then
      entryWalkExtract cacheDir env.zipEntries
    else
      [.uncompress (bulkFormat p) out cacheDir]))

/-- The effect trace of `getFfmpeg`: optional cache eviction; on a hit the
zip is decompressed straight into the runtime directory `nwDir`; on a miss
the request to the hardcoded GitHub release URL, the request to the
redirect's `location` (always followed), decompression into `nwDir`, then
the `replaceFfmpeg` relocation. -/
def getFfmpegTrace (version : String) (f : Flavor) (p : Platform) (a : Arch)
    (cacheDir : String) (cache : Bool) (env : Env) : List Effect :=
  let nwDir := resolvePath cacheDir (nwjsDirName f version p a)
  let out := resolvePath cacheDir (ffmpegArchiveName version p a)
  (if cache = false then [.rm out] else []) ++
  (if cache && env.ffmpegArchiveExists then
    [.uncompress "zip" out nwDir]
  else
    [.request (ffmpegUrl version p a), .request env.ffmpegRedirectLocation,
     .uncompress "zip" out nwDir, .relocateFfmpeg p nwDir])

/-- The effect trace of `getNodeHeaders`: optional cache eviction; on a hit
decompression into `cacheDir`, removal of the stale `node-v...` directory,
rename of `node` to `node-v...`, then the spawned `patch` command (whose
callback only logs a failure); on a miss the single request, decompression,
and the rename, with no removal and no patch. -/
def getNodeHeadersTrace (version : String) (p : Platform) (a : Arch)
    (cacheDir : String) (cache : Bool) (env : Env) : List Effect :=
  let out := resolvePath cacheDir (headersArchiveName version p a)
  let nodeDir := resolvePath cacheDir (nodeDirName version p a)
  (if cache = false then [.rm out] else []) ++
  (if cache && env.headersArchiveExists then
    [.uncompress "tgz" out cacheDir, .rm nodeDir,
     .renameFs (resolvePath cacheDir "node") nodeDir,
     .patchExec (resolvePath nodeDir "common.gypi") nodeHeaderPatchFile] ++
    (if env.patchFails then [.logError] else [])
  else
    [.request (headersUrl version p a), .uncompress "tgz" out cacheDir,
     .renameFs (resolvePath cacheDir "node") nodeDir])

/-- The `options.nativeAddon` values `false | "gyp"`. -/
inductive NativeAddon where
  | off
  | gyp
deriving DecidableEq, Repr

/-- The effect trace of `get`: `await getNwjs(...)`, then
`if (ffmpeg === true) await getFfmpeg(...)`, then
`if (nativeAddon === "gyp") await getNodeHeaders(...)`. -/
def getTrace (version : String) (f : Flavor) (p : Platform) (a : Arch)
    (downloadUrl cacheDir : String) (cache ffmpeg : Bool) (nativeAddon : NativeAddon)
    (env : Env) : List Effect :=
  getNwjsTrace version f p a downloadUrl cacheDir cache env ++
  (if ffmpeg then getFfmpegTrace version f p a cacheDir cache env else []) ++
  (if nativeAddon = .gyp then getNodeHeadersTrace version p a cacheDir cache env else [])

/-- A promise's terminal state. -/
inductive Outcome where
  | ok
  | rejected
deriving DecidableEq, Repr

/-- The events that can occur during the `getNwjs` download: an `error`
event on the first response, an `error` event on the second response, and an
`error` event on the destination `createWriteStream(out)` stream. -/
structure FetchEvents where
  resp1Error : Bool
  resp2Error : Bool
  destWriteError : Bool
deriving DecidableEq, Repr

/-- How the `getNwjs` download promise settles: the executor attaches
`reject` to the `error` events of the two responses and `resolve` to the
second response's `end` event; no handler at all is attached to the
destination write stream, so its `error` event settles nothing. -/
def nwjsFetchOutcome (e : FetchEvents) : Outcome :=
  if e.resp1Error || e.resp2Error then .rejected else .ok

/-- The settlement of the `getNodeHeaders` run as a function of the `patch`
command's success: `exec`'s callback only does `console.error(error)`, so the
pipeline's promise is fulfilled whether or not the patch fails. -/
def getNodeHeadersOutcome (_patchFails : Bool) : Outcome := .ok

/-- An environment with every archive already cached, used as a concrete
cache-hit scenario. -/
def envHit : Env := ⟨true, true, true, false, "", "", [], false⟩

/-- An environment with an empty cache, used as a concrete cache-miss
scenario. -/
def envMiss : Env := ⟨false, false, false, false, "", "", [], false⟩

example : getFfmpegTrace "0.82.0" .normal .linux .x64 "./cache" true envHit =
    [.uncompress "zip" "./cache/ffmpeg-v0.82.0-linux-x64.zip" "./cache/nwjs-v0.82.0-linux-x64"] := by
  decide

example : getNodeHeadersTrace "0.82.0" .linux .x64 "./cache" true envMiss =
    [.request "https://dl.nwjs.io//v0.82.0/nw-headers-v0.82.0.tar.gz",
     .uncompress "tgz" "./cache/headers-v0.82.0-linux-x64.tar.gz" "./cache",
     .renameFs "./cache/node" "./cache/node-v0.82.0-linux-x64"] := by
  decide

/-- Splitting at the first occurrence of a separator character: if `c` occurs
in neither head, the head and the remainder are determined. -/
theorem sep_cancel (c : Char) {a1 : List Char} :
    ∀ {a2 r1 r2 : List Char}, c ∉ a1 → c ∉ a2 →
      a1 ++ c :: r1 = a2 ++ c :: r2 → a1 = a2 ∧ r1 = r2 := by
  induction a1 with
  | nil =>
    intro a2 r1 r2 h1 h2 h
    cases a2 with
    | nil => simp_all
    | cons b bs =>
      simp only [List.nil_append, List.cons_append, List.cons.injEq] at h
      simp [h.1] at h2
  | cons x xs ih =>
    intro a2 r1 r2 h1 h2 h
    cases a2 with
    | nil =>
      simp only [List.nil_append, List.cons_append, List.cons.injEq] at h
      simp [h.1] at h1
    | cons y ys =>
      simp only [List.cons_append, List.cons.injEq] at h
      obtain ⟨hxy, ht⟩ := h
      have h1' : c ∉ xs := fun hc => h1 (List.mem_cons_of_mem x hc)
      have h2' : c ∉ ys := fun hc => h2 (List.mem_cons_of_mem y hc)
      obtain ⟨he, hr⟩ := ih h1' h2' ht
      exact ⟨by rw [hxy, he], hr⟩

/-- Splitting at the last occurrence of a separator character: if `c` occurs
in neither tail, the part before the final `c` and the tail are determined. -/
theorem last_sep_cancel (c : Char) {x1 x2 t1 t2 : List Char}
    (h1 : c ∉ t1) (h2 : c ∉ t2)
    (h : x1 ++ c :: t1 = x2 ++ c :: t2) : x1 = x2 ∧ t1 = t2 := by
  have hr := congrArg List.reverse h
  simp only [List.reverse_append, List.reverse_cons, List.append_assoc,
    List.singleton_append] at hr
  have h1' : c ∉ t1.reverse := by simpa using h1
  have h2' : c ∉ t2.reverse := by simpa using h2
  obtain ⟨ha, hb⟩ := sep_cancel c h1' h2' hr
  exact ⟨List.reverse_injective hb, List.reverse_injective ha⟩

/-- Regrouping around the last of two hyphen separators. -/
theorem reassoc_dash (A B C : List Char) :
    A ++ '-' :: (B ++ '-' :: C) = (A ++ '-' :: B) ++ '-' :: C := by
  simp

theorem dash_data : "-".data = ['-'] := rfl

theorem dashv_data : "-v".data = ['-', 'v'] := rfl

theorem dot_data : ".".data = ['.'] := rfl

theorem nwjs_data : "nwjs".data = ['n', 'w', 'j', 's'] := rfl

theorem sdk_data : "-sdk".data = ['-', 's', 'd', 'k'] := rfl

theorem empty_data : "".data = [] := rfl

theorem ffv_data : "ffmpeg-v".data = ['f', 'f', 'm', 'p', 'e', 'g', '-', 'v'] := rfl

theorem hv_data : "headers-v".data = ['h', 'e', 'a', 'd', 'e', 'r', 's', '-', 'v'] := rfl

theorem nv_data : "node-v".data = ['n', 'o', 'd', 'e', '-', 'v'] := rfl

theorem zip_data : ".zip".data = ['.', 'z', 'i', 'p'] := rfl

theorem targz_data : ".tar.gz".data = ['.', 't', 'a', 'r', '.', 'g', 'z'] := rfl

theorem dash_not_mem_pstr (p : Platform) : '-' ∉ (Platform.str p).data := by
  cases p <;> decide

theorem dash_not_mem_astr (a : Arch) : '-' ∉ (Arch.str a).data := by
  cases a <;> decide

theorem dash_not_mem_arch_zip (a : Arch) :
    '-' ∉ (Arch.str a).data ++ '.' :: 'z' :: 'i' :: 'p' :: [] := by
  cases a <;> decide

theorem dash_not_mem_arch_targz (a : Arch) :
    '-' ∉ (Arch.str a).data ++ '.' :: 't' :: 'a' :: 'r' :: '.' :: 'g' :: 'z' :: [] := by
  cases a <;> decide

theorem dash_not_mem_arch_ext (a : Arch) (p : Platform) :
    '-' ∉ (Arch.str a).data ++ '.' :: (archiveExt p).data := by
  cases a <;> cases p <;> decide

/-- The codec archive name determines version, platform and arch. -/
theorem ffmpegName_inj {v1 v2 : String} {p1 p2 : Platform} {a1 a2 : Arch}
    (h : ffmpegArchiveName v1 p1 a1 = ffmpegArchiveName v2 p2 a2) :
    v1 = v2 ∧ p1 = p2 ∧ a1 = a2 := by
  have hd := congrArg String.data h
  simp only [ffmpegArchiveName, String.data_append, List.append_assoc, List.cons_append,
    List.nil_append, List.singleton_append, List.cons.injEq, eq_self_iff_true, true_and] at hd
  rw [reassoc_dash, reassoc_dash] at hd
  obtain ⟨hx, ht⟩ := last_sep_cancel '-' (dash_not_mem_arch_zip a1) (dash_not_mem_arch_zip a2) hd
  obtain ⟨hv, hp⟩ := last_sep_cancel '-' (dash_not_mem_pstr p1) (dash_not_mem_pstr p2) hx
  refine ⟨String.ext hv, ?_, ?_⟩
  · revert hp
    cases p1 <;> cases p2 <;> decide
  · revert ht
    cases a1 <;> cases a2 <;> decide

/-- The headers archive name determines version, platform and arch. -/
theorem headersName_inj {v1 v2 : String} {p1 p2 : Platform} {a1 a2 : Arch}
    (h : headersArchiveName v1 p1 a1 = headersArchiveName v2 p2 a2) :
    v1 = v2 ∧ p1 = p2 ∧ a1 = a2 := by
  have hd := congrArg String.data h
  simp only [headersArchiveName, String.data_append, List.append_assoc, List.cons_append,
    List.nil_append, List.singleton_append, List.cons.injEq, eq_self_iff_true, true_and] at hd
  rw [reassoc_dash, reassoc_dash] at hd
  obtain ⟨hx, ht⟩ :=
    last_sep_cancel '-' (dash_not_mem_arch_targz a1) (dash_not_mem_arch_targz a2) hd
  obtain ⟨hv, hp⟩ := last_sep_cancel '-' (dash_not_mem_pstr p1) (dash_not_mem_pstr p2) hx
  refine ⟨String.ext hv, ?_, ?_⟩
  · revert hp
    cases p1 <;> cases p2 <;> decide
  · revert ht
    cases a1 <;> cases a2 <;> decide

/-- The renamed headers directory name determines version, platform and arch. -/
theorem nodeDirName_inj {v1 v2 : String} {p1 p2 : Platform} {a1 a2 : Arch}
    (h : nodeDirName v1 p1 a1 = nodeDirName v2 p2 a2) :
    v1 = v2 ∧ p1 = p2 ∧ a1 = a2 := by
  have hd := congrArg String.data h
  simp only [nodeDirName, String.data_append, List.append_assoc, List.cons_append,
    List.nil_append, List.singleton_append, List.cons.injEq, eq_self_iff_true, true_and] at hd
  rw [reassoc_dash, reassoc_dash] at hd
  obtain ⟨hx, ht⟩ := last_sep_cancel '-' (dash_not_mem_astr a1) (dash_not_mem_astr a2) hd
  obtain ⟨hv, hp⟩ := last_sep_cancel '-' (dash_not_mem_pstr p1) (dash_not_mem_pstr p2) hx
  refine ⟨String.ext hv, ?_, ?_⟩
  · revert hp
    cases p1 <;> cases p2 <;> decide
  · revert ht
    cases a1 <;> cases a2 <;> decide

/-- The runtime archive name determines flavor, version, platform and arch. -/
theorem nwjsName_inj {f1 f2 : Flavor} {v1 v2 : String} {p1 p2 : Platform} {a1 a2 : Arch}
    (h : nwjsArchiveName f1 v1 p1 a1 = nwjsArchiveName f2 v2 p2 a2) :
    f1 = f2 ∧ v1 = v2 ∧ p1 = p2 ∧ a1 = a2 := by
  have hd := congrArg String.data h
  cases f1 <;> cases f2 <;>
    simp only [nwjsArchiveName, flavorTag, String.data_append, List.append_assoc,
      List.cons_append, List.nil_append, List.singleton_append, List.cons.injEq,
      eq_self_iff_true, true_and] at hd
  case normal.sdk => exact absurd hd.1 (by decide)
  case sdk.normal => exact absurd hd.1 (by decide)
  all_goals
    rw [reassoc_dash, reassoc_dash] at hd
  all_goals
    obtain ⟨hx, ht⟩ :=
      last_sep_cancel '-' (dash_not_mem_arch_ext a1 p1) (dash_not_mem_arch_ext a2 p2) hd
  all_goals
    obtain ⟨hv, hp⟩ := last_sep_cancel '-' (dash_not_mem_pstr p1) (dash_not_mem_pstr p2) hx
  all_goals
    refine ⟨rfl, String.ext hv, ?_, ?_⟩
  all_goals
    first
    | (revert hp
       cases p1 <;> cases p2 <;> decide)
    | (revert ht
       cases a1 <;> cases a2 <;> cases p1 <;> cases p2 <;> decide)

/-- A runtime archive name is never a codec archive name. -/
theorem nwjs_ne_ffmpeg (f : Flavor) (v1 v2 : String) (p1 p2 : Platform) (a1 a2 : Arch) :
    nwjsArchiveName f v1 p1 a1 ≠ ffmpegArchiveName v2 p2 a2 := by
  intro h
  have hd := congrArg String.data h
  cases f <;>
    simp only [nwjsArchiveName, ffmpegArchiveName, flavorTag, String.data_append,
      List.append_assoc, List.cons_append, List.nil_append, List.singleton_append,
      List.cons.injEq, eq_self_iff_true, true_and] at hd <;>
    exact absurd hd.1 (by decide)

/-- A runtime archive name is never a headers archive name. -/
theorem nwjs_ne_headers (f : Flavor) (v1 v2 : String) (p1 p2 : Platform) (a1 a2 : Arch) :
    nwjsArchiveName f v1 p1 a1 ≠ headersArchiveName v2 p2 a2 := by
  intro h
  have hd := congrArg String.data h
  cases f <;>
    simp only [nwjsArchiveName, headersArchiveName, flavorTag, String.data_append,
      List.append_assoc, List.cons_append, List.nil_append, List.singleton_append,
      List.cons.injEq, eq_self_iff_true, true_and] at hd <;>
    exact absurd hd.1 (by decide)

/-- A codec archive name is never a headers archive name. -/
theorem ffmpeg_ne_headers (v1 v2 : String) (p1 p2 : Platform) (a1 a2 : Arch) :
    ffmpegArchiveName v1 p1 a1 ≠ headersArchiveName v2 p2 a2 := by
  intro h
  have hd := congrArg String.data h
  simp only [ffmpegArchiveName, headersArchiveName, String.data_append,
    List.append_assoc, List.cons_append, List.nil_append, List.singleton_append,
    List.cons.injEq, eq_self_iff_true, true_and] at hd
  exact absurd hd.1 (by decide)

/-- C9 counterexample: the claim that no two distinct (target, artifactKind)
pairs share an archive path is false at a concrete input — two targets that
differ only in flavor are distinct, yet the codec pipeline computes the same
archive path for both, because `ffmpeg-v...zip` does not encode the flavor. -/
theorem locate_flavor_collision :
    locate ⟨"0.82.0", .normal, .linux, .x64⟩ .codec =
      locate ⟨"0.82.0", .sdk, .linux, .x64⟩ .codec ∧
    (⟨"0.82.0", .normal, .linux, .x64⟩ : GetTarget) ≠ ⟨"0.82.0", .sdk, .linux, .x64⟩ := by
  decide

/-- C9 (amended): `locate` is a pure function (determinism is inherent in the
model) and is injective in every respect except flavor for the flavorless
kinds: paths of distinct artifact kinds never collide; within the runtime
kind the path determines the whole target; within the codec and headers
kinds the path determines version, platform and arch (but not flavor, which
those names do not encode). -/
theorem locate_injectivity_amended :
    (∀ (t1 t2 : GetTarget) (k1 k2 : ArtifactKind), k1 ≠ k2 → locate t1 k1 ≠ locate t2 k2) ∧
    (∀ t1 t2 : GetTarget, locate t1 .runtime = locate t2 .runtime → t1 = t2) ∧
    (∀ t1 t2 : GetTarget, locate t1 .codec = locate t2 .codec →
      t1.version = t2.version ∧ t1.platform = t2.platform ∧ t1.arch = t2.arch) ∧
    (∀ t1 t2 : GetTarget, locate t1 .headers = locate t2 .headers →
      t1.version = t2.version ∧ t1.platform = t2.platform ∧ t1.arch = t2.arch) := by
  refine ⟨?_, ?_, ?_, ?_⟩
  · intro t1 t2 k1 k2 hk
    cases k1 <;> cases k2
    case runtime.runtime => exact absurd rfl hk
    case runtime.codec => exact nwjs_ne_ffmpeg _ _ _ _ _ _ _
    case runtime.headers => exact nwjs_ne_headers _ _ _ _ _ _ _
    case codec.runtime => exact fun h => nwjs_ne_ffmpeg _ _ _ _ _ _ _ h.symm
    case codec.codec => exact absurd rfl hk
    case codec.headers => exact ffmpeg_ne_headers _ _ _ _ _ _
    case headers.runtime => exact fun h => nwjs_ne_headers _ _ _ _ _ _ _ h.symm
    case headers.codec => exact fun h => ffmpeg_ne_headers _ _ _ _ _ _ h.symm
    case headers.headers => exact absurd rfl hk
  · intro t1 t2 h
    obtain ⟨hf, hv, hp, ha⟩ := nwjsName_inj h
    obtain ⟨x1, x2, x3, x4⟩ := t1
    obtain ⟨y1, y2, y3, y4⟩ := t2
    simp_all
  · intro t1 t2 h
    exact ffmpegName_inj h
  · intro t1 t2 h
    exact headersName_inj h

/-- C9 witness: the kind-distinctness and runtime injectivity applied at a
concrete target. -/
theorem locate_injectivity_amended_witness :
    locate ⟨"0.82.0", .normal, .linux, .x64⟩ .runtime ≠
      locate ⟨"0.82.0", .normal, .linux, .x64⟩ .codec :=
  locate_injectivity_amended.1 ⟨"0.82.0", .normal, .linux, .x64⟩
    ⟨"0.82.0", .normal, .linux, .x64⟩ .runtime .codec (by decide)

/-- The trace removes the directory `dir` before it writes any extracted
content: every extraction effect is preceded by `rm dir`. -/
def removedBeforeExtraction (dir : String) (tr : List Effect) : Prop :=
  ∀ (j : Nat) (e : Effect), tr.get? j = some e → e.isExtraction = true →
    ∃ i : Nat, i < j ∧ tr.get? i = some (.rm dir)

/-- A trace that starts with `rm dir` removes before extraction. -/
theorem rbe_cons_rm (dir : String) (rest : List Effect) :
    removedBeforeExtraction dir (.rm dir :: rest) := by
  intro j e hj hx
  cases j with
  | zero =>
    simp only [List.get?_cons_zero, Option.some.injEq] at hj
    rw [← hj] at hx
    simp [Effect.isExtraction] at hx
  | succ n => exact ⟨0, Nat.succ_pos n, rfl⟩

/-- Prepending effects that write no extracted content preserves the
remove-before-extraction property. -/
theorem rbe_prepend (dir : String) (pre tr : List Effect)
    (hpre : ∀ e ∈ pre, e.isExtraction = false)
    (h : removedBeforeExtraction dir tr) :
    removedBeforeExtraction dir (pre ++ tr) := by
  intro j e hj hx
  by_cases hlt : j < pre.length
  · rw [List.get?_append hlt] at hj
    have hmem : e ∈ pre := List.get?_mem hj
    rw [hpre e hmem] at hx
    cases hx
  · push_neg at hlt
    rw [List.get?_append_right hlt] at hj
    obtain ⟨i, hi, hget⟩ := h (j - pre.length) e hj hx
    refine ⟨pre.length + i, by omega, ?_⟩
    rw [List.get?_append_right (Nat.le_add_right _ _), Nat.add_sub_cancel_left]
    exact hget

/-- A trace of the form `pre ++ rm dir :: rest`, with no extraction in
`pre`, removes before extraction. -/
theorem rbe_shape (dir : String) (pre rest : List Effect)
    (hpre : ∀ e ∈ pre, e.isExtraction = false) :
    removedBeforeExtraction dir (pre ++ .rm dir :: rest) :=
  rbe_prepend dir pre _ hpre (rbe_cons_rm dir rest)

/-- The walk stops at the first failing entry: the effects are exactly those
of the successful leading entries, and the error escapes the loop. -/
theorem walkEntries_append_fail (cacheDir : String) (pre : List (ZipEntry × Bool))
    (e : ZipEntry) (post : List (ZipEntry × Bool)) (hpre : ∀ x ∈ pre, x.2 = false) :
    walkEntries cacheDir (pre ++ (e, true) :: post) =
      (entriesEffects cacheDir (pre.map Prod.fst), true) := by
  induction pre with
  | nil => simp [walkEntries, entriesEffects]
  | cons x xs ih =>
    have hx : x.2 = false := hpre x (List.mem_cons_self x xs)
    have hxs : ∀ y ∈ xs, y.2 = false := fun y hy => hpre y (List.mem_cons_of_mem x hy)
    obtain ⟨x1, x2⟩ := x
    dsimp at hx
    subst hx
    simp [walkEntries, ih hxs, entriesEffects]

/-- A walk in which no entry fails processes every entry. -/
theorem walkEntries_all_ok (cacheDir : String) (l : List (ZipEntry × Bool))
    (h : ∀ x ∈ l, x.2 = false) :
    walkEntries cacheDir l = (entriesEffects cacheDir (l.map Prod.fst), false) := by
  induction l with
  | nil => simp [walkEntries, entriesEffects]
  | cons x xs ih =>
    have hx : x.2 = false := h x (List.mem_cons_self x xs)
    have hxs : ∀ y ∈ xs, y.2 = false := fun y hy => h y (List.mem_cons_of_mem x hy)
    obtain ⟨x1, x2⟩ := x
    dsimp at hx
    subst hx
    simp [walkEntries, ih hxs, entriesEffects]

/-- C2 counterexample: with a failing first entry, the following entry is
not extracted — its directory-creation effect is absent from the trace even
though the error is logged and the handle is closed, so the walk does not
proceed past a failing entry as the claim states. -/
theorem entry_walk_abort_counterexample :
    Effect.closeZip ∈ entryWalkExtract "./cache" [(⟨"bad"⟩, true), (⟨"sub/"⟩, false)] ∧
    Effect.logError ∈ entryWalkExtract "./cache" [(⟨"bad"⟩, true), (⟨"sub/"⟩, false)] ∧
    Effect.mkdirRec (resolvePath "./cache" "sub/") ∉
      entryWalkExtract "./cache" [(⟨"bad"⟩, true), (⟨"sub/"⟩, false)] := by
  decide

/-- C2 (amended): an entry-level error mid-walk is caught by the `try/catch`
that wraps the whole loop: it is logged once and the archive handle is still
closed, but the loop itself is aborted — the trace consists of the effects
of the entries before the failing one, the log, and the close, so entries
after the failing one are skipped; when no entry fails, every entry is
processed and the handle is closed. -/
theorem entry_walk_abort_behavior :
    (∀ (cacheDir : String) (pre : List (ZipEntry × Bool)) (e : ZipEntry)
        (post : List (ZipEntry × Bool)), (∀ x ∈ pre, x.2 = false) →
      entryWalkExtract cacheDir (pre ++ (e, true) :: post) =
        entriesEffects cacheDir (pre.map Prod.fst) ++ [.logError, .closeZip]) ∧
    (∀ (cacheDir : String) (l : List (ZipEntry × Bool)), (∀ x ∈ l, x.2 = false) →
      entryWalkExtract cacheDir l = entriesEffects cacheDir (l.map Prod.fst) ++ [.closeZip]) := by
  constructor
  · intro cacheDir pre e post hpre
    rw [entryWalkExtract, walkEntries_append_fail cacheDir pre e post hpre]
    simp
  · intro cacheDir l hl
    rw [entryWalkExtract, walkEntries_all_ok cacheDir l hl]
    simp

/-- C2 witness: the amended behavior at a concrete entry list with a failure
at the second entry. -/
theorem entry_walk_abort_behavior_witness :
    entryWalkExtract "./cache" [((⟨"ok/"⟩ : ZipEntry), false), ((⟨"bad"⟩ : ZipEntry), true)] =
      entriesEffects "./cache" [⟨"ok/"⟩] ++ [Effect.logError, Effect.closeZip] :=
  entry_walk_abort_behavior.1 "./cache" [(⟨"ok/"⟩, false)] ⟨"bad"⟩ [] (by decide)

/-- C3 (confirmed): with `cache=true` and the archive already at its cache
path, none of the three pipelines issues a network request; each only
re-extracts the existing archive. -/
theorem cache_hit_skips_network (version : String) (f : Flavor) (p : Platform) (a : Arch)
    (downloadUrl cacheDir : String) (env : Env)
    (h1 : env.nwjsArchiveExists = true) (h2 : env.ffmpegArchiveExists = true)
    (h3 : env.headersArchiveExists = true) :
    (∀ e ∈ getNwjsTrace version f p a downloadUrl cacheDir true env, e.isRequest = false) ∧
    Effect.uncompress (bulkFormat p) (resolvePath cacheDir (nwjsArchiveName f version p a))
        cacheDir ∈ getNwjsTrace version f p a downloadUrl cacheDir true env ∧
    (∀ e ∈ getFfmpegTrace version f p a cacheDir true env, e.isRequest = false) ∧
    Effect.uncompress "zip" (resolvePath cacheDir (ffmpegArchiveName version p a))
        (resolvePath cacheDir (nwjsDirName f version p a)) ∈
      getFfmpegTrace version f p a cacheDir true env ∧
    (∀ e ∈ getNodeHeadersTrace version p a cacheDir true env, e.isRequest = false) ∧
    Effect.uncompress "tgz" (resolvePath cacheDir (headersArchiveName version p a))
        cacheDir ∈ getNodeHeadersTrace version p a cacheDir true env := by
  obtain ⟨e1, e2, e3, e4, e5, e6, e7, e8⟩ := env
  dsimp at h1 h2 h3
  subst h1; subst h2; subst h3
  refine ⟨?_, ?_, ?_, ?_, ?_, ?_⟩ <;>
    cases e8 <;>
    simp [getNwjsTrace, getFfmpegTrace, getNodeHeadersTrace, Effect.isRequest]

/-- C3 witness: the runtime cache-hit extraction at a concrete target. -/
theorem cache_hit_skips_network_witness :
    Effect.uncompress (bulkFormat .linux)
        (resolvePath "./cache" (nwjsArchiveName .normal "0.82.0" .linux .x64)) "./cache" ∈
      getNwjsTrace "0.82.0" .normal .linux .x64 "https://dl.nwjs.io" "./cache" true envHit :=
  (cache_hit_skips_network "0.82.0" .normal .linux .x64 "https://dl.nwjs.io" "./cache" envHit
    rfl rfl rfl).2.1

/-- The runtime pipeline removes the stale extracted directory before any
extraction effect, on every path. -/
theorem getNwjs_rbe (version : String) (f : Flavor) (p : Platform) (a : Arch)
    (downloadUrl cacheDir : String) (cache : Bool) (env : Env) :
    removedBeforeExtraction (resolvePath cacheDir (nwjsDirName f version p a))
      (getNwjsTrace version f p a downloadUrl cacheDir cache env) := by
  rcases env with ⟨e1, e2, e3, e4, e5, e6, e7, e8⟩
  cases cache
  case false =>
    simp only [getNwjsTrace, Bool.false_and]
    simp only [if_neg (by simp : ¬ (false = true)), if_pos rfl, List.cons_append,
      List.nil_append, List.append_assoc, List.singleton_append]
    exact rbe_shape _ (.rm _ ::
      (nwjsFetchRequests downloadUrl version f p a e5).map .request) _
      (by
        intro e he
        simp only [List.mem_cons, List.mem_map] at he
        rcases he with rfl | ⟨u, _, rfl⟩ <;> rfl)
  case true =>
    cases e1
    case true =>
      simp only [getNwjsTrace, Bool.and_self, if_pos rfl]
      simp only [if_neg (by simp : ¬ (true = false)), List.nil_append]
      exact rbe_cons_rm _ _
    case false =>
      simp only [getNwjsTrace, Bool.and_false]
      simp only [if_neg (by simp : ¬ (true = false)), if_neg (by simp : ¬ (false = true)),
        List.nil_append, List.append_assoc, List.singleton_append]
      exact rbe_shape _ ((nwjsFetchRequests downloadUrl version f p a e5).map .request) _
        (by
          intro e he
          simp only [List.mem_map] at he
          obtain ⟨u, _, rfl⟩ := he
          rfl)

/-- C1 counterexample: on a codec cache hit the archive is extracted into the
runtime directory with no removal of any kind first — the trace contains an
extraction effect but no `rm` at all, so extraction is not always preceded by
a recursive removal of the destination directory. -/
theorem ffmpeg_extraction_without_clean :
    ((getFfmpegTrace "0.82.0" .normal .linux .x64 "./cache" true envHit).all
      fun e => !e.isRm) = true ∧
    ((getFfmpegTrace "0.82.0" .normal .linux .x64 "./cache" true envHit).any
      Effect.isExtraction) = true := by
  decide

/-- C1 (amended): only the runtime pipeline performs clean-room extraction —
`getNwjs` removes the stale extracted directory before every extraction
effect on both the hit and the miss path.  The codec pipeline never removes
a directory (its only `rm` ever is the `cache=false` archive eviction), and
the headers pipeline removes the stale `node-v...` directory only on the
cache-hit path and only after extraction (before the rename); on the miss
path it removes nothing beyond the archive eviction. -/
theorem clean_extraction_runtime_only :
    (∀ (version : String) (f : Flavor) (p : Platform) (a : Arch)
        (downloadUrl cacheDir : String) (cache : Bool) (env : Env),
      removedBeforeExtraction (resolvePath cacheDir (nwjsDirName f version p a))
        (getNwjsTrace version f p a downloadUrl cacheDir cache env)) ∧
    (∀ (version : String) (f : Flavor) (p : Platform) (a : Arch) (cacheDir : String)
        (cache : Bool) (env : Env),
      (getFfmpegTrace version f p a cacheDir cache env).filter Effect.isRm =
        if cache then []
        else [.rm (resolvePath cacheDir (ffmpegArchiveName version p a))]) ∧
    (∀ (version : String) (p : Platform) (a : Arch) (cacheDir : String) (cache : Bool)
        (env : Env), (cache && env.headersArchiveExists) = false →
      (getNodeHeadersTrace version p a cacheDir cache env).filter Effect.isRm =
        if cache then []
        else [.rm (resolvePath cacheDir (headersArchiveName version p a))]) ∧
    (∀ (version : String) (p : Platform) (a : Arch) (cacheDir : String) (env : Env),
      env.headersArchiveExists = true →
      (getNodeHeadersTrace version p a cacheDir true env).get? 0 =
        some (.uncompress "tgz" (resolvePath cacheDir (headersArchiveName version p a))
          cacheDir) ∧
      (getNodeHeadersTrace version p a cacheDir true env).get? 1 =
        some (.rm (resolvePath cacheDir (nodeDirName version p a)))) := by
  refine ⟨getNwjs_rbe, ?_, ?_, ?_⟩
  · intro version f p a cacheDir cache env
    rcases env with ⟨e1, e2, e3, e4, e5, e6, e7, e8⟩
    cases cache <;> cases e2 <;>
      simp [getFfmpegTrace, Effect.isRm, List.filter]
  · intro version p a cacheDir cache env hmiss
    rcases env with ⟨e1, e2, e3, e4, e5, e6, e7, e8⟩
    dsimp at hmiss
    cases cache <;> simp_all [getNodeHeadersTrace, Effect.isRm, List.filter]
  · intro version p a cacheDir env h3
    rcases env with ⟨e1, e2, e3, e4, e5, e6, e7, e8⟩
    dsimp at h3
    subst h3
    exact ⟨rfl, rfl⟩

/-- C1 witness: the headers cache-hit trace at a concrete target extracts
first and removes the stale directory only afterwards. -/
theorem clean_extraction_runtime_only_witness :
    (getNodeHeadersTrace "0.82.0" .linux .x64 "./cache" true envHit).get? 1 =
      some (.rm (resolvePath "./cache" (nodeDirName "0.82.0" .linux .x64))) :=
  (clean_extraction_runtime_only.2.2.2 "0.82.0" .linux .x64 "./cache" envHit rfl).2

/-- C4 counterexample: on a cache miss (fresh fetch) the headers pipeline
fetches and extracts but never spawns the `patch` command — the PATCH stage
is absent from the miss-path trace. -/
theorem headers_patch_missing_on_miss :
    ((getNodeHeadersTrace "0.82.0" .linux .x64 "./cache" true envMiss).all
      fun e => !e.isPatch) = true ∧
    Effect.request (headersUrl "0.82.0" .linux .x64) ∈
      getNodeHeadersTrace "0.82.0" .linux .x64 "./cache" true envMiss ∧
    Effect.uncompress "tgz" (resolvePath "./cache" (headersArchiveName "0.82.0" .linux .x64))
        "./cache" ∈ getNodeHeadersTrace "0.82.0" .linux .x64 "./cache" true envMiss := by
  decide

/-- C4 (amended): the headers pipeline runs its PATCH stage only on the
cache-hit path, where `patch` is spawned on `common.gypi` with the fixed
patch file as the fourth effect; on the non-hit path no patch effect occurs.
A patch failure is only logged (`exec`'s callback does `console.error`) and
the run still settles fulfilled. -/
theorem headers_patch_hit_only :
    (∀ (version : String) (p : Platform) (a : Arch) (cacheDir : String) (env : Env),
      env.headersArchiveExists = true →
      (getNodeHeadersTrace version p a cacheDir true env).get? 3 =
        some (.patchExec
          (resolvePath (resolvePath cacheDir (nodeDirName version p a)) "common.gypi")
          nodeHeaderPatchFile)) ∧
    (∀ (version : String) (p : Platform) (a : Arch) (cacheDir : String) (cache : Bool)
        (env : Env), (cache && env.headersArchiveExists) = false →
      ∀ e ∈ getNodeHeadersTrace version p a cacheDir cache env, e.isPatch = false) ∧
    (∀ b : Bool, getNodeHeadersOutcome b = .ok) ∧
    (∀ (version : String) (p : Platform) (a : Arch) (cacheDir : String) (env : Env),
      env.headersArchiveExists = true → env.patchFails = true →
      Effect.logError ∈ getNodeHeadersTrace version p a cacheDir true env) := by
  refine ⟨?_, ?_, fun _ => rfl, ?_⟩
  · intro version p a cacheDir env h3
    rcases env with ⟨e1, e2, e3, e4, e5, e6, e7, e8⟩
    dsimp at h3
    subst h3
    rfl
  · intro version p a cacheDir cache env hmiss
    rcases env with ⟨e1, e2, e3, e4, e5, e6, e7, e8⟩
    dsimp at hmiss
    cases cache <;> simp_all [getNodeHeadersTrace, Effect.isPatch]
  · intro version p a cacheDir env h3 h8
    rcases env with ⟨e1, e2, e3, e4, e5, e6, e7, e8⟩
    dsimp at h3 h8
    subst h3
    subst h8
    simp [getNodeHeadersTrace]

/-- C4 witness: the hit-path PATCH effect at a concrete target. -/
theorem headers_patch_hit_only_witness :
    (getNodeHeadersTrace "0.82.0" .linux .x64 "./cache" true envHit).get? 3 =
      some (.patchExec
        (resolvePath (resolvePath "./cache" (nodeDirName "0.82.0" .linux .x64)) "common.gypi")
        nodeHeaderPatchFile) :=
  headers_patch_hit_only.1 "0.82.0" .linux .x64 "./cache" envHit rfl

/-- C5 counterexample: on a codec cache hit the trace contains no
`replaceFfmpeg` relocation at all — the archive is merely decompressed into
the runtime directory — so the RELOCATE stage does not run on every path. -/
theorem ffmpeg_relocate_missing_on_hit :
    ((getFfmpegTrace "0.82.0" .normal .linux .x64 "./cache" true envHit).all
      fun e => !e.isRelocate) = true ∧
    Effect.uncompress "zip" (resolvePath "./cache" (ffmpegArchiveName "0.82.0" .linux .x64))
        (resolvePath "./cache" (nwjsDirName .normal "0.82.0" .linux .x64)) ∈
      getFfmpegTrace "0.82.0" .normal .linux .x64 "./cache" true envHit := by
  decide

/-- C5 (amended): with `ffmpeg=true` every codec effect occurs after the
complete runtime-pipeline trace; on the cache-miss path the codec pipeline
ends with the `replaceFfmpeg` relocation into the runtime directory, but on
the cache-hit path no relocation occurs — the zip is only decompressed into
the runtime directory. -/
theorem ffmpeg_sequencing_and_relocate :
    (∀ (version : String) (f : Flavor) (p : Platform) (a : Arch)
        (downloadUrl cacheDir : String) (cache : Bool) (na : NativeAddon) (env : Env),
      ∀ e ∈ getFfmpegTrace version f p a cacheDir cache env,
        e ∈ (getTrace version f p a downloadUrl cacheDir cache true na env).drop
              (getNwjsTrace version f p a downloadUrl cacheDir cache env).length) ∧
    (∀ (version : String) (f : Flavor) (p : Platform) (a : Arch) (cacheDir : String)
        (cache : Bool) (env : Env), (cache && env.ffmpegArchiveExists) = false →
      (getFfmpegTrace version f p a cacheDir cache env).getLast? =
        some (.relocateFfmpeg p (resolvePath cacheDir (nwjsDirName f version p a)))) ∧
    (∀ (version : String) (f : Flavor) (p : Platform) (a : Arch) (cacheDir : String)
        (env : Env), env.ffmpegArchiveExists = true →
      (∀ e ∈ getFfmpegTrace version f p a cacheDir true env, e.isRelocate = false) ∧
      Effect.uncompress "zip" (resolvePath cacheDir (ffmpegArchiveName version p a))
          (resolvePath cacheDir (nwjsDirName f version p a)) ∈
        getFfmpegTrace version f p a cacheDir true env) := by
  refine ⟨?_, ?_, ?_⟩
  · intro version f p a downloadUrl cacheDir cache na env e he
    simp only [getTrace, if_pos rfl, List.append_assoc, List.drop_left]
    exact List.mem_append_left _ he
  · intro version f p a cacheDir cache env hmiss
    rcases env with ⟨e1, e2, e3, e4, e5, e6, e7, e8⟩
    dsimp at hmiss
    cases cache <;> simp_all [getFfmpegTrace, List.getLast?]
  · intro version f p a cacheDir env h2
    rcases env with ⟨e1, e2, e3, e4, e5, e6, e7, e8⟩
    dsimp at h2
    subst h2
    constructor
    · intro e he
      simp [getFfmpegTrace] at he
      subst he
      rfl
    · simp [getFfmpegTrace]

/-- C5 witness: the miss-path relocation at a concrete target. -/
theorem ffmpeg_sequencing_and_relocate_witness :
    (getFfmpegTrace "0.82.0" .normal .linux .x64 "./cache" true envMiss).getLast? =
      some (.relocateFfmpeg .linux
        (resolvePath "./cache" (nwjsDirName .normal "0.82.0" .linux .x64))) :=
  ffmpeg_sequencing_and_relocate.2.1 "0.82.0" .normal .linux .x64 "./cache" true envMiss rfl

set_option maxRecDepth 4000 in
/-- C6: for a `downloadUrl` outside the three allow-listed hosts — here the
GitHub release URL that the source's own JSDoc example documents — the
constructed runtime URL is the empty string, which does not start with the
configured `downloadUrl` at all. -/
theorem github_downloadUrl_empty_url :
    nwjsConstructedUrl "https://github.com/corwin-of-amber/nw.js/releases/download"
        "0.75.0" .normal .osx .arm64 = "" ∧
    ((nwjsConstructedUrl "https://github.com/corwin-of-amber/nw.js/releases/download"
        "0.75.0" .normal .osx .arm64).startsWith
      "https://github.com/corwin-of-amber/nw.js/releases/download") = false := by
  decide

/-- C7 (confirmed): the runtime fetch always issues exactly two requests; for
the allow-listed redirecting mirror hosts the second request's URL is the
`location` header of the first response, while for the default host the
second request reuses the originally constructed URL. -/
theorem mirror_redirect_two_requests (downloadUrl version : String) (f : Flavor)
    (p : Platform) (a : Arch) (location : String) :
    (nwjsFetchRequests downloadUrl version f p a location).length = 2 ∧
    (isRedirectMirror downloadUrl = true →
      nwjsFetchRequests downloadUrl version f p a location =
        [nwjsConstructedUrl downloadUrl version f p a, location]) ∧
    (downloadUrl = "https://dl.nwjs.io" →
      nwjsFetchRequests downloadUrl version f p a location =
        [nwjsConstructedUrl downloadUrl version f p a,
         nwjsConstructedUrl downloadUrl version f p a]) := by
  refine ⟨rfl, ?_, ?_⟩
  · intro h
    simp [nwjsFetchRequests, h]
  · intro h
    subst h
    have hm : isRedirectMirror "https://dl.nwjs.io" = false := by decide
    simp [nwjsFetchRequests, hm]

/-- C7 witness: the mirror case at a concrete location. -/
theorem mirror_redirect_two_requests_witness :
    nwjsFetchRequests "https://npm.taobao.org/mirrors/nwjs" "0.82.0" .normal .linux .x64
        "https://real.example/nw.tar.gz" =
      [nwjsConstructedUrl "https://npm.taobao.org/mirrors/nwjs" "0.82.0" .normal .linux .x64,
       "https://real.example/nw.tar.gz"] :=
  (mirror_redirect_two_requests "https://npm.taobao.org/mirrors/nwjs" "0.82.0" .normal
    .linux .x64 "https://real.example/nw.tar.gz").2.1 (by decide)

/-- C8 counterexample: a destination-stream write error with both responses
healthy leaves the fetch promise fulfilled, not rejected — the claimed
stream-error rejection does not happen. -/
theorem write_error_not_rejected :
    nwjsFetchOutcome ⟨false, false, true⟩ = .ok ∧
    nwjsFetchOutcome ⟨false, false, true⟩ ≠ .rejected := by
  decide

/-- C8 (amended): the fetch promise rejects exactly on a response `error`
event; the destination write stream has no error handler, so its failure
never influences how the fetch settles. -/
theorem fetch_outcome_ignores_write_error :
    (∀ ev : FetchEvents,
      nwjsFetchOutcome ev = .rejected ↔ (ev.resp1Error = true ∨ ev.resp2Error = true)) ∧
    (∀ r1 r2 w w' : Bool, nwjsFetchOutcome ⟨r1, r2, w⟩ = nwjsFetchOutcome ⟨r1, r2, w'⟩) := by
  constructor
  · intro ⟨r1, r2, w⟩
    cases r1 <;> cases r2 <;> simp [nwjsFetchOutcome]
  · intro r1 r2 w w'
    rfl

/-- C10 (confirmed): the headers fetch URL is a function of the version
alone — any two (platform, arch) pairs yield the identical URL — even though
the headers cache archive name and the renamed extracted directory both
encode platform and arch (distinct pairs give distinct names). -/
theorem headers_url_uniform :
    (∀ (version : String) (p1 : Platform) (a1 : Arch) (p2 : Platform) (a2 : Arch),
      headersUrl version p1 a1 = headersUrl version p2 a2) ∧
    (∀ (version : String) (p1 : Platform) (a1 : Arch) (p2 : Platform) (a2 : Arch),
      (p1, a1) ≠ (p2, a2) →
      headersArchiveName version p1 a1 ≠ headersArchiveName version p2 a2) ∧
    (∀ (version : String) (p1 : Platform) (a1 : Arch) (p2 : Platform) (a2 : Arch),
      (p1, a1) ≠ (p2, a2) →
      nodeDirName version p1 a1 ≠ nodeDirName version p2 a2) := by
  refine ⟨fun _ _ _ _ _ => rfl, ?_, ?_⟩
  · intro version p1 a1 p2 a2 hne h
    obtain ⟨-, hp, ha⟩ := headersName_inj h
    exact hne (by rw [hp, ha])
  · intro version p1 a1 p2 a2 hne h
    obtain ⟨-, hp, ha⟩ := nodeDirName_inj h
    exact hne (by rw [hp, ha])

/-- C10 witness: URL equality and archive-name distinctness at two concrete
(platform, arch) pairs. -/
theorem headers_url_uniform_witness :
    headersUrl "0.82.0" .linux .x64 = headersUrl "0.82.0" .win .arm64 ∧
    headersArchiveName "0.82.0" .linux .x64 ≠ headersArchiveName "0.82.0" .win .arm64 :=
  ⟨headers_url_uniform.1 "0.82.0" .linux .x64 .win .arm64,
   headers_url_uniform.2.1 "0.82.0" .linux .x64 .win .arm64 (by decide)⟩
